import Mathlib

set_option autoImplicit false

/-!
Verification model of the atomic-lock repository: the `AtomicLock` coordinator
(core/atomic-lock.ts) with its circuit-breaker failure tracker, and the
in-process drivers `MemoryLockDriver` (memory-driver.ts) and `FileLockDriver`
(file-driver.ts).  Timestamps and millisecond quantities are `Int` (JS numbers
used as integral epoch-milliseconds); JS `Map`s are insertion-ordered
association lists holding at most one entry per key.
-/

/-- Entries of a JS `Map` in insertion order.  A JS `Map` holds at most one
entry per key; all operations below agree with JS `Map` semantics on such
lists. -/
abbrev JsMap (α : Type) := List (String × α)

/-- Model of `Map.get`: the value stored for `k`, if any. -/
def mapLookup {α : Type} (k : String) : JsMap α → Option α
  | [] => none
  | e :: rest => if e.1 = k then some e.2 else mapLookup k rest

/-- Model of `Map.set`: replace the value of an existing entry in place (keeping its
insertion position, as JS `Map.set` does), or append a new entry at the end. -/
def mapSet {α : Type} (k : String) (v : α) : JsMap α → JsMap α
  | [] => [(k, v)]
  | e :: rest => if e.1 = k then (k, v) :: rest else e :: mapSet k v rest

/-- Model of `Map.delete`: remove the entry for `k` (removes every occurrence, which on
a JS `Map` — at most one entry per key — is the same as removing the one). -/
def mapDelete {α : Type} (k : String) : JsMap α → JsMap α
  | [] => []
  | e :: rest => if e.1 = k then mapDelete k rest else e :: mapDelete k rest

theorem mapLookup_mapSet_self {α : Type} (k : String) (v : α) (l : JsMap α) :
    mapLookup k (mapSet k v l) = some v := by
  induction l with
  | nil => simp [mapLookup, mapSet]
  | cons e rest ih =>
    by_cases h : e.1 = k
    · simp [mapSet, h, mapLookup]
    · simp [mapSet, h, mapLookup, ih]

theorem mapLookup_mapSet_ne {α : Type} {k k' : String} (hne : k' ≠ k) (v : α) (l : JsMap α) :
    mapLookup k' (mapSet k v l) = mapLookup k' l := by
  have h1 : ¬ (k = k') := fun hh => hne hh.symm
  induction l with
  | nil => simp [mapLookup, mapSet, h1]
  | cons e rest ih =>
    by_cases h : e.1 = k
    · have h2 : ¬ (e.1 = k') := by rw [h]; exact h1
      simp [mapSet, h, mapLookup, h1, h2]
    · simp [mapSet, h, mapLookup, ih]

theorem mapLookup_mapDelete_self {α : Type} (k : String) (l : JsMap α) :
    mapLookup k (mapDelete k l) = none := by
  induction l with
  | nil => simp [mapLookup, mapDelete]
  | cons e rest ih =>
    by_cases h : e.1 = k
    · simp [mapDelete, h, ih]
    · simp [mapDelete, h, mapLookup, ih]

theorem mapLookup_mapDelete_ne {α : Type} {k k' : String} (hne : k' ≠ k) (l : JsMap α) :
    mapLookup k' (mapDelete k l) = mapLookup k' l := by
  induction l with
  | nil => simp [mapDelete]
  | cons e rest ih =>
    by_cases h : e.1 = k
    · have h1 : ¬ (k = k') := fun hh => hne hh.symm
      have h2 : ¬ (e.1 = k') := by rw [h]; exact h1
      simp [mapDelete, h, mapLookup, h1, h2, ih]
    · simp [mapDelete, h, mapLookup, ih]

theorem length_mapSet_le {α : Type} (k : String) (v : α) (l : JsMap α) :
    (mapSet k v l).length ≤ l.length + 1 := by
  induction l with
  | nil => simp [mapSet]
  | cons e rest ih =>
    by_cases h : e.1 = k
    · simp [mapSet, h]
    · simpa [mapSet, h] using Nat.succ_le_succ ih

theorem mapLookup_eq_none_of_not_mem_keys {α : Type} {k : String} {l : JsMap α}
    (h : k ∉ l.map Prod.fst) : mapLookup k l = none := by
  induction l with
  | nil => rfl
  | cons e rest ih =>
    simp only [List.map_cons, List.mem_cons, not_or] at h
    have h2 : ¬ (e.1 = k) := fun he => h.1 he.symm
    simp [mapLookup, h2, ih h.2]

/-! ## Coordinator data model (core/atomic-lock.ts) -/

/-- A per-key failure record of the circuit breaker:
`{ count: number, lastFailure: number }` in `AtomicLock.lockFailures`. -/
structure FailureRecord where
  count : Nat
  lastFailure : Int
  deriving Repr, DecidableEq

/-- The coordinator's configuration, with the constructor defaults
`circuitBreakerThreshold = 5`, `circuitBreakerResetTime = 30000` (ms) and
`maxFailureEntries = 1000`. -/
structure LockConfig where
  circuitBreakerThreshold : Nat
  circuitBreakerResetTime : Int
  maxFailureEntries : Nat
  deriving Repr, DecidableEq

/-- The coordinator's in-memory state: the `lockFailures` map and the
`lastCleanup` timestamp of the failure-record sweep. -/
structure CoordState where
  lockFailures : JsMap FailureRecord
  lastCleanup : Int
  deriving Repr, DecidableEq

/-- Result shape of `getCircuitBreakerStatus`. -/
structure CircuitBreakerStats where
  isOpen : Bool
  failureCount : Nat
  lastFailure : Option Int
  nextAttemptAt : Option Int
  deriving Repr, DecidableEq

/-- Model of `AtomicLock.cleanupFailureRecords`: delete every record whose failure
window has elapsed (`now - lastFailure > circuitBreakerResetTime`). -/
def cleanupFailureRecords (cfg : LockConfig) (now : Int) (l : JsMap FailureRecord) :
    JsMap FailureRecord :=
  l.filter (fun e => decide (now - e.2.lastFailure ≤ cfg.circuitBreakerResetTime))

/-- First phase of `AtomicLock.recordLockFailure`: run the stale-record sweep
and stamp `lastCleanup` when more than 60 000 ms have passed since the last
sweep. -/
def failureSweep (cfg : LockConfig) (now : Int) (s : CoordState) : CoordState :=
  if 60000 < now - s.lastCleanup then
    { lockFailures := cleanupFailureRecords cfg now s.lockFailures, lastCleanup := now }
  else s

/-- Second phase of `AtomicLock.recordLockFailure`: when the map is at or
above `maxFailureEntries`, delete the first (oldest-inserted) 100 keys
(`Array.from(keys).slice(0, 100)` of a JS `Map` iterates insertion order). -/
def recordFailureEvict (cfg : LockConfig) (l : JsMap FailureRecord) : JsMap FailureRecord :=
  if cfg.maxFailureEntries ≤ l.length then l.drop 100 else l

/-- Third phase of `AtomicLock.recordLockFailure`: upsert `key` — count reset
to 1 when the reset window elapsed since the record's last failure,
incremented otherwise, 1 for a fresh record; `lastFailure` stamped `now`. -/
def upsertFailure (cfg : LockConfig) (now : Int) (key : String) (l : JsMap FailureRecord) :
    JsMap FailureRecord :=
  let newRec : FailureRecord :=
    match mapLookup key l with
    | some existing =>
      { count := if cfg.circuitBreakerResetTime < now - existing.lastFailure then 1
                 else existing.count + 1
        lastFailure := now }
    | none => { count := 1, lastFailure := now }
  mapSet key newRec l

/-- Model of `AtomicLock.recordLockFailure`: the sweep, the size-cap eviction, and the
upsert, in the source's order. -/
def recordLockFailure (cfg : LockConfig) (now : Int) (key : String) (s : CoordState) :
    CoordState :=
  { lockFailures :=
      upsertFailure cfg now key (recordFailureEvict cfg (failureSweep cfg now s).lockFailures)
    lastCleanup := (failureSweep cfg now s).lastCleanup }

/-- Model of `AtomicLock.isCircuitOpen`: a record exists, its count reached the
threshold, and the reset window has not yet elapsed since the last failure. -/
def isCircuitOpen (cfg : LockConfig) (now : Int) (s : CoordState) (key : String) : Bool :=
  match mapLookup key s.lockFailures with
  | none => false
  | some failure =>
    decide (cfg.circuitBreakerThreshold ≤ failure.count) &&
    decide (now - failure.lastFailure < cfg.circuitBreakerResetTime)

/-- Model of `AtomicLock.getCircuitBreakerStatus`. -/
def getCircuitBreakerStatus (cfg : LockConfig) (now : Int) (s : CoordState) (key : String) :
    CircuitBreakerStats :=
  let failure := mapLookup key s.lockFailures
  { isOpen := isCircuitOpen cfg now s key
    failureCount := match failure with | some f => f.count | none => 0
    lastFailure := failure.map (fun f => f.lastFailure)
    nextAttemptAt := failure.map (fun f => f.lastFailure + cfg.circuitBreakerResetTime) }

/-- Outcome of the one awaited driver call inside `AtomicLock.tryAcquire`:
the driver either resolved with a boolean or rejected (threw). -/
inductive DriverOutcome where
  | ok (acquired : Bool)
  | threw
  deriving Repr, DecidableEq

/-- Model of `AtomicLock.tryAcquire`: short-circuit to `null` when the breaker is open;
otherwise perform the driver call (its outcome is the explicit `outcome`
argument; `lockValue` is the token freshly minted by `generateLockValue`):
on `true` delete the key's failure record and return the token, on `false`
return `null`, on a thrown error record a failure and return `null`.  The
try/catch in the source makes this a total function: no path throws. -/
def AtomicLock.tryAcquire (cfg : LockConfig) (now : Int) (key lockValue : String)
    (outcome : DriverOutcome) (s : CoordState) : Option String × CoordState :=
  if isCircuitOpen cfg now s key then (none, s)
  else
    match outcome with
    | DriverOutcome.ok true =>
      (some lockValue, { s with lockFailures := mapDelete key s.lockFailures })
    | DriverOutcome.ok false => (none, s)
    | DriverOutcome.threw => (none, recordLockFailure cfg now key s)

/-- Errors escaping `AtomicLock.withLock`: the `AcquisitionFailed` error thrown
by `acquire`, or the body's own error re-raised after the `finally` release. -/
inductive WithLockError (E : Type) where
  | acquisitionFailed (key : String)
  | bodyError (e : E)
  deriving Repr

/-- Model of `AtomicLock.withLock`: `acquire` (that is, `tryAcquire` followed by a throw
of `AcquisitionFailed` on `null`), then the body in a `try`, with
`release(key, lockValue)` in the `finally`.  The third component is the trace
of `release` invocations made (the release itself delegates to the driver and
never throws). -/
def AtomicLock.withLock {E T : Type} (cfg : LockConfig) (now : Int) (key lockValue : String)
    (outcome : DriverOutcome) (body : String → Except E T) (s : CoordState) :
    Except (WithLockError E) T × CoordState × List (String × String) :=
  match AtomicLock.tryAcquire cfg now key lockValue outcome s with
  | (none, s') => (Except.error (WithLockError.acquisitionFailed key), s', [])
  | (some tok, s') =>
    match body tok with
    | Except.ok t => (Except.ok t, s', [(key, tok)])
    | Except.error e => (Except.error (WithLockError.bodyError e), s', [(key, tok)])

/-! ## Memory driver (memory-driver.ts) -/

/-- A stored lock record of the memory driver:
`{ value, expiresAt, createdAt }`. -/
structure MemLock where
  value : String
  expiresAt : Int
  createdAt : Int
  deriving Repr, DecidableEq

/-- The memory driver's `locks` map. -/
abbrev MemState := JsMap MemLock

/-- Result shape of `getLockInfo` (types.ts `LockInfo`; the memory and file
drivers always populate `createdAt`). -/
structure LockInfo where
  key : String
  value : String
  expiresAt : Int
  createdAt : Int
  deriving Repr, DecidableEq

/-- The expired-record cleanup the memory driver performs before checking a
key: delete the key's record when `expiresAt < now`. -/
def expireOne (now : Int) (k : String) (locks : MemState) : MemState :=
  match mapLookup k locks with
  | some existing => if existing.expiresAt < now then mapDelete k locks else locks
  | none => locks

/-- Model of `MemoryLockDriver.tryAcquire`: delete the key's record if expired
(`expiresAt < now`), then fail if a record remains, else store
`{ value, expiresAt := now + expiryInSeconds * 1000, createdAt := now }`. -/
def MemoryLockDriver.tryAcquire (now : Int) (key lockValue : String)
    (expiryInSeconds : Int) (locks : MemState) : Bool × MemState :=
  let locks := expireOne now key locks
  if (mapLookup key locks).isSome then (false, locks)
  else
    (true, mapSet key
      { value := lockValue, expiresAt := now + expiryInSeconds * 1000, createdAt := now }
      locks)

/-- The first loop of `MemoryLockDriver.tryAcquireMultiple`: for each listed
key in order, delete its record if expired. -/
def expireKeys (now : Int) : List String → MemState → MemState
  | [], locks => locks
  | k :: rest, locks => expireKeys now rest (expireOne now k locks)

/-- Model of `MemoryLockDriver.tryAcquireMultiple`: expire the listed keys, return
`false` if any of them still has a record, else store the shared record under
every key. -/
def MemoryLockDriver.tryAcquireMultiple (now : Int) (keys : List String)
    (lockValue : String) (expiryInSeconds : Int) (locks : MemState) : Bool × MemState :=
  let locks := expireKeys now keys locks
  if keys.any (fun k => (mapLookup k locks).isSome) then (false, locks)
  else
    let lockData : MemLock :=
      { value := lockValue, expiresAt := now + expiryInSeconds * 1000, createdAt := now }
    (true, keys.foldl (fun l k => mapSet k lockData l) locks)

/-- Model of `MemoryLockDriver.release`: delete and report `true` only when a record is
present and its stored value equals `lockValue` (no expiry check). -/
def MemoryLockDriver.release (key lockValue : String) (locks : MemState) :
    Bool × MemState :=
  match mapLookup key locks with
  | some existing =>
    if existing.value = lockValue then (true, mapDelete key locks) else (false, locks)
  | none => (false, locks)

/-- Model of `MemoryLockDriver.exists` (named `existsKey` here; `exists` is reserved in
Lean): `false` when no record, opportunistic delete and `false` when the
record is expired (`expiresAt < now`), else `true`. -/
def MemoryLockDriver.existsKey (now : Int) (key : String) (locks : MemState) :
    Bool × MemState :=
  match mapLookup key locks with
  | none => (false, locks)
  | some existing =>
    if existing.expiresAt < now then (false, mapDelete key locks) else (true, locks)

/-- Model of `MemoryLockDriver.getLockInfo`: `null` when no record, opportunistic
delete and `null` when expired (`expiresAt < now`), else the record. -/
def MemoryLockDriver.getLockInfo (now : Int) (key : String) (locks : MemState) :
    Option LockInfo × MemState :=
  match mapLookup key locks with
  | none => (none, locks)
  | some existing =>
    if existing.expiresAt < now then (none, mapDelete key locks)
    else (some { key := key, value := existing.value, expiresAt := existing.expiresAt,
                 createdAt := existing.createdAt }, locks)

/-! ## File driver (file-driver.ts).  The filesystem is a map from lock-file
path to the parsed record; `readLockFile` returns the stored record when the
file is present (I/O and parse failures, which the source turns into `null`,
are outside this model). -/

/-- A serialized lock file `{ value, expiresAt, createdAt }`. -/
structure FileLock where
  value : String
  expiresAt : Int
  createdAt : Int
  deriving Repr, DecidableEq

/-- One character of the sanitizing regex replace
`key.replace(/[^a-zA-Z0-9-_]/g, not-in-class => underscore)`. -/
def sanitizeChar (c : Char) : Char :=
  if c.isAlphanum || c = '-' || c = '_' then c else '_'

/-- The sanitized key used as the lock filename. -/
def sanitizeKey (key : String) : String :=
  String.mk (key.data.map sanitizeChar)

/-- Model of `FileLockDriver.getLockPath` for keys whose sanitized form is within
`MAX_FILENAME_LENGTH` (200): the configured directory, a slash, the sanitized
key and the `.lock` extension.  The sha256-hashing fallback the source applies
to longer sanitized keys is not modelled; every key appearing in the theorems
below is short. -/
def FileLockDriver.getLockPath (lockDir key : String) : String :=
  lockDir ++ "/" ++ sanitizeKey key ++ ".lock"

/-- The create phase of `FileLockDriver.tryAcquireMultiple`: exclusive-create
(`wx`) each path in order, collecting the created paths; on the first path
that already exists, unlink every path created so far and report failure. -/
def FileLockDriver.createAll (lockData : FileLock) :
    List String → List String → JsMap FileLock → Bool × JsMap FileLock
  | [], _, fsys => (true, fsys)
  | p :: rest, acquired, fsys =>
    if (mapLookup p fsys).isSome then
      (false, acquired.foldl (fun f q => mapDelete q f) fsys)
    else FileLockDriver.createAll lockData rest (p :: acquired) (mapSet p lockData fsys)

/-- Model of `FileLockDriver.tryAcquireMultiple`: check phase — if any listed key's
lock file holds a record with `expiresAt >= now`, return `false` touching
nothing; otherwise create all lock files, rolling back on a partial failure. -/
def FileLockDriver.tryAcquireMultiple (lockDir : String) (now : Int) (keys : List String)
    (lockValue : String) (expiryInSeconds : Int) (fsys : JsMap FileLock) :
    Bool × JsMap FileLock :=
  let lockPaths := keys.map (FileLockDriver.getLockPath lockDir)
  let lockData : FileLock :=
    { value := lockValue, expiresAt := now + expiryInSeconds * 1000, createdAt := now }
  if lockPaths.any (fun p =>
      match mapLookup p fsys with
      | some existing => decide (now ≤ existing.expiresAt)
      | none => false) then
    (false, fsys)
  else FileLockDriver.createAll lockData lockPaths [] fsys

/-- Model of `FileLockDriver.getLockInfo`: read the key's lock file and return its
contents as a `LockInfo`, or `null` when the file is absent.  Note the source
performs no expiry check here. -/
def FileLockDriver.getLockInfo (lockDir key : String) (fsys : JsMap FileLock) :
    Option LockInfo :=
  match mapLookup (FileLockDriver.getLockPath lockDir key) fsys with
  | none => none
  | some fileLock =>
    some { key := key, value := fileLock.value, expiresAt := fileLock.expiresAt,
           createdAt := fileLock.createdAt }

/-! ## Coordinator method surface (for the public-API claims).  The README's
API Reference section of the repository documents an operation surface for
`AtomicLock`; `AtomicLock.classMethods` lists the members the class actually
declares in core/atomic-lock.ts. -/

/-- The members declared by the `AtomicLock` class in core/atomic-lock.ts. -/
def AtomicLock.classMethods : List String :=
  ["constructor", "createDriver", "withLock", "tryAcquire", "acquire", "release",
   "getCircuitBreakerStatus", "isCircuitOpen", "recordLockFailure",
   "cleanupFailureRecords", "generateLockValue", "close"]

/-- The `AtomicLock` operations documented in the repository README's API
Reference (sections AtomicLock and Monitoring). -/
def readmeApiOperations : List String :=
  ["tryAcquire", "acquire", "withLock", "tryAcquireMultiple", "release",
   "releaseMultiple", "close", "getCircuitBreakerStatus",
   "getAllCircuitBreakerStats", "resetCircuitBreaker"]

/-- Model of `AtomicLock.close` acting on the coordinator state paired with the memory
driver's store: the body is exactly `this.lockFailures.clear()` — no driver
call, no other field touched. -/
def AtomicLockMem.close (s : CoordState × MemState) : CoordState × MemState :=
  ({ s.1 with lockFailures := [] }, s.2)

/-! ## Supporting lemmas about the failure tracker -/

theorem upsertFailure_lookup_self (cfg : LockConfig) (now : Int) (key : String)
    (l : JsMap FailureRecord) :
    ∃ c, mapLookup key (upsertFailure cfg now key l)
      = some { count := c, lastFailure := now } ∧ 1 ≤ c := by
  unfold upsertFailure
  rcases h : mapLookup key l with _ | existing
  · exact ⟨1, by simp [h, mapLookup_mapSet_self], le_refl 1⟩
  · refine ⟨if cfg.circuitBreakerResetTime < now - existing.lastFailure then 1
      else existing.count + 1, by simp [h, mapLookup_mapSet_self], ?_⟩
    split <;> omega

theorem upsertFailure_lookup_ne (cfg : LockConfig) (now : Int) {key k : String}
    (hne : k ≠ key) (l : JsMap FailureRecord) :
    mapLookup k (upsertFailure cfg now key l) = mapLookup k l := by
  unfold upsertFailure
  exact mapLookup_mapSet_ne hne _ l

theorem length_upsertFailure_le (cfg : LockConfig) (now : Int) (key : String)
    (l : JsMap FailureRecord) :
    (upsertFailure cfg now key l).length ≤ l.length + 1 := by
  unfold upsertFailure
  exact length_mapSet_le key _ l

theorem length_failureSweep_le (cfg : LockConfig) (now : Int) (s : CoordState) :
    (failureSweep cfg now s).lockFailures.length ≤ s.lockFailures.length := by
  unfold failureSweep
  split
  · exact List.length_filter_le _ _
  · exact le_refl _

/-- Single-step size bound: from a state within the cap, `recordLockFailure`
keeps the failure map within the cap (for any positive cap). -/
theorem recordLockFailure_length_le (cfg : LockConfig) (h1 : 1 ≤ cfg.maxFailureEntries)
    (now : Int) (key : String) (s : CoordState)
    (h2 : s.lockFailures.length ≤ cfg.maxFailureEntries) :
    (recordLockFailure cfg now key s).lockFailures.length ≤ cfg.maxFailureEntries := by
  unfold recordLockFailure recordFailureEvict
  have hs1 : (failureSweep cfg now s).lockFailures.length ≤ cfg.maxFailureEntries :=
    le_trans (length_failureSweep_le cfg now s) h2
  split
  · have hup := length_upsertFailure_le cfg now key
      ((failureSweep cfg now s).lockFailures.drop 100)
    have hdrop : ((failureSweep cfg now s).lockFailures.drop 100).length
        = (failureSweep cfg now s).lockFailures.length - 100 := List.length_drop 100 _
    dsimp only
    omega
  · have hup := length_upsertFailure_le cfg now key (failureSweep cfg now s).lockFailures
    dsimp only
    omega

/-! ## Claim C1 -/

/-- Claim C1, counterexample to the claim as stated: with the circuit breaker
closed (empty failure map) and the driver's `tryAcquire` resolving `false`,
the coordinator returns `null` but records no failure — the failure map still
has no entry for the key, where the claim requires one to be created or
incremented. -/
theorem tryAcquire_driver_false_records_no_failure :
    isCircuitOpen ⟨5, 30000, 1000⟩ 0 ⟨[], 0⟩ "k" = false ∧
    (AtomicLock.tryAcquire ⟨5, 30000, 1000⟩ 0 "k" "v"
      (DriverOutcome.ok false) ⟨[], 0⟩).1 = none ∧
    mapLookup "k" (AtomicLock.tryAcquire ⟨5, 30000, 1000⟩ 0 "k" "v"
      (DriverOutcome.ok false) ⟨[], 0⟩).2.lockFailures = none := by
  refine ⟨rfl, ?_, ?_⟩ <;> decide

/-- Claim C1 (amended): with the circuit breaker closed for `key`, the
coordinator's `tryAcquire` never throws; when the driver throws it returns
`null` and records a failure for the key (the key afterwards holds a record
stamped `lastFailure = now` with count at least 1); when the driver resolves
`false` it returns `null` leaving the coordinator state unchanged (no failure
recorded); when the driver resolves `true` it deletes any failure record for
the key and returns the freshly minted token. -/
theorem tryAcquire_outcomes_closed_breaker (cfg : LockConfig) (now : Int)
    (key lockValue : String) (s : CoordState)
    (h : isCircuitOpen cfg now s key = false) :
    AtomicLock.tryAcquire cfg now key lockValue DriverOutcome.threw s
      = (none, recordLockFailure cfg now key s) ∧
    (∃ c, mapLookup key (recordLockFailure cfg now key s).lockFailures
        = some { count := c, lastFailure := now } ∧ 1 ≤ c) ∧
    AtomicLock.tryAcquire cfg now key lockValue (DriverOutcome.ok false) s = (none, s) ∧
    AtomicLock.tryAcquire cfg now key lockValue (DriverOutcome.ok true) s
      = (some lockValue, { s with lockFailures := mapDelete key s.lockFailures }) ∧
    mapLookup key (mapDelete key s.lockFailures) = none := by
  refine ⟨by simp [AtomicLock.tryAcquire, h], ?_, by simp [AtomicLock.tryAcquire, h],
    by simp [AtomicLock.tryAcquire, h], mapLookup_mapDelete_self key s.lockFailures⟩
  exact upsertFailure_lookup_self cfg now key _

/-- Witness for `tryAcquire_outcomes_closed_breaker` at a concrete closed
breaker state. -/
theorem tryAcquire_outcomes_closed_breaker_witness :
    AtomicLock.tryAcquire ⟨5, 30000, 1000⟩ 7 "k" "v" (DriverOutcome.ok true)
      ⟨[("k", ⟨2, 3⟩)], 0⟩ = (some "v", ⟨[], 0⟩) := by
  have h := tryAcquire_outcomes_closed_breaker ⟨5, 30000, 1000⟩ 7 "k" "v"
    ⟨[("k", ⟨2, 3⟩)], 0⟩ (by decide)
  rw [h.2.2.2.1]
  decide

/-! ## Claim C2 -/

/-- Claim C2: `getCircuitBreakerStatus(key).isOpen` is true iff a failure
record exists for the key, its count is at least the configured threshold,
and the time since its last failure is strictly less than the reset window;
consequently, once the reset window has elapsed past the last failure,
`isOpen` is false with no explicit reset call. -/
theorem circuit_open_iff_threshold_and_window (cfg : LockConfig) (now : Int)
    (s : CoordState) (key : String) :
    ((getCircuitBreakerStatus cfg now s key).isOpen = true ↔
      ∃ f, mapLookup key s.lockFailures = some f ∧
        cfg.circuitBreakerThreshold ≤ f.count ∧
        now - f.lastFailure < cfg.circuitBreakerResetTime) ∧
    (∀ f, mapLookup key s.lockFailures = some f →
      cfg.circuitBreakerResetTime ≤ now - f.lastFailure →
      (getCircuitBreakerStatus cfg now s key).isOpen = false) := by
  have hopen : (getCircuitBreakerStatus cfg now s key).isOpen
      = isCircuitOpen cfg now s key := rfl
  constructor
  · rw [hopen]
    rcases h : mapLookup key s.lockFailures with _ | f
    · simp [isCircuitOpen, h]
    · simp [isCircuitOpen, h]
  · intro f hf hle
    rw [hopen]
    simp only [isCircuitOpen, hf, Bool.and_eq_false_iff, decide_eq_false_iff_not, not_lt]
    right
    exact hle

/-- Witness for `circuit_open_iff_threshold_and_window`: a record at the
threshold whose reset window has elapsed reports a closed breaker. -/
theorem circuit_open_iff_threshold_and_window_witness :
    (getCircuitBreakerStatus ⟨5, 30000, 1000⟩ 40000
      ⟨[("k", ⟨5, 0⟩)], 0⟩ "k").isOpen = false :=
  (circuit_open_iff_threshold_and_window ⟨5, 30000, 1000⟩ 40000
    ⟨[("k", ⟨5, 0⟩)], 0⟩ "k").2 ⟨5, 0⟩ rfl (by decide)

/-! ## Claim C3 -/

/-- Claim C3: `withLock` acquires (propagating acquisition failure as an
`AcquisitionFailed` error with no release performed), invokes the body with
the acquired token, and invokes `release` with that same key and token on
every exit path of the body — both when the body returns normally
(propagating its result) and when it throws (before the body's error
propagates). -/
theorem withLock_always_releases {E T : Type} (cfg : LockConfig) (now : Int)
    (key lockValue : String) (outcome : DriverOutcome) (body : String → Except E T)
    (s : CoordState) :
    (AtomicLock.withLock cfg now key lockValue outcome body s).2.2
      = ((AtomicLock.tryAcquire cfg now key lockValue outcome s).1.map
          (fun tok => (key, tok))).toList ∧
    (AtomicLock.withLock cfg now key lockValue outcome body s).1
      = Option.elim (AtomicLock.tryAcquire cfg now key lockValue outcome s).1
          (Except.error (WithLockError.acquisitionFailed key))
          (fun tok => (body tok).mapError WithLockError.bodyError) ∧
    (AtomicLock.withLock cfg now key lockValue outcome body s).2.1
      = (AtomicLock.tryAcquire cfg now key lockValue outcome s).2 := by
  unfold AtomicLock.withLock
  rcases hr : AtomicLock.tryAcquire cfg now key lockValue outcome s with ⟨o, s'⟩
  rcases o with _ | tok
  · simp
  · rcases hb : body tok with t | e <;> simp [hb, Except.mapError]

/-! ## Claim C5 -/

/-- Claim C5, counterexample to the claim as stated: the memory driver's
`release` performs no expiry check.  At time 5, the record for `"k"`
(`expiresAt = 0`) is expired, so no live record exists; the claim's
biconditional then requires `release` to return `false`, but the code
compares only the stored value and returns `true`. -/
theorem mem_release_ignores_expiry :
    (MemoryLockDriver.release "k" "t" [("k", ⟨"t", 0, 0⟩)]).1 = true ∧
    (∀ r : MemLock, mapLookup "k" [("k", (⟨"t", 0, 0⟩ : MemLock))] = some r →
      ¬ (5 : Int) < r.expiresAt) := by
  refine ⟨by decide, ?_⟩
  intro r hr
  have : r = (⟨"t", 0, 0⟩ : MemLock) := by
    have h0 : mapLookup "k" [("k", (⟨"t", 0, 0⟩ : MemLock))]
        = some (⟨"t", 0, 0⟩ : MemLock) := by decide
    rw [h0] at hr
    exact (Option.some_injective _ hr).symm
  rw [this]
  decide

/-- Claim C5 (amended): `release(key, token)` returns `true` iff a record —
live or expired — is present for the key and the token equals its stored
value (compare-and-delete, no expiry consultation); on `true` exactly that
key's record is deleted, and on any non-matching token or absent record it
returns `false` leaving the stored state unchanged. -/
theorem mem_release_token_gated (key lockValue : String) (locks : MemState) :
    ((MemoryLockDriver.release key lockValue locks).1 = true ↔
      ∃ r, mapLookup key locks = some r ∧ r.value = lockValue) ∧
    ((MemoryLockDriver.release key lockValue locks).1 = false →
      (MemoryLockDriver.release key lockValue locks).2 = locks) ∧
    ((MemoryLockDriver.release key lockValue locks).1 = true →
      (MemoryLockDriver.release key lockValue locks).2 = mapDelete key locks) := by
  unfold MemoryLockDriver.release
  rcases h : mapLookup key locks with _ | r
  · simp
  · by_cases hv : r.value = lockValue
    · simp [hv]
    · simp [hv]

/-- Witness for `mem_release_token_gated`: matching token releases, wrong
token leaves the store unchanged. -/
theorem mem_release_token_gated_witness :
    (MemoryLockDriver.release "k" "t" [("k", ⟨"t", 9, 0⟩)]).1 = true ∧
    (MemoryLockDriver.release "k" "w" [("k", ⟨"t", 9, 0⟩)]).2 = [("k", ⟨"t", 9, 0⟩)] := by
  constructor
  · exact (mem_release_token_gated "k" "t" [("k", ⟨"t", 9, 0⟩)]).1.mpr
      ⟨⟨"t", 9, 0⟩, by decide, rfl⟩
  · exact (mem_release_token_gated "k" "w" [("k", ⟨"t", 9, 0⟩)]).2.1 (by decide)

/-! ## Claim C8 -/

/-- Claim C8, refuting input: `FileLockDriver.getLockInfo` performs no expiry
check.  The lock file for `"k"` holds a record with `expiresAt = 0`; at time
1000 that record is expired (not live, since a record is live iff
`now < expiresAt`), yet `getLockInfo` returns it instead of `null` — contrary
to the claim and to the driver contract (the memory and SQLite drivers do
filter expired records here). -/
theorem file_getLockInfo_returns_expired_record :
    FileLockDriver.getLockInfo "locks" "k" [("locks/k.lock", ⟨"t", 0, 0⟩)]
      = some ⟨"k", "t", 0, 0⟩ ∧
    ¬ (1000 : Int) < (0 : Int) := by
  exact ⟨by decide, by decide⟩

/-! ## Claim C9 -/

/-- Claim C9, refuting the claimed operation surface: the repository README's
API Reference documents `tryAcquireMultiple` as an `AtomicLock` operation,
but the `AtomicLock` class in core/atomic-lock.ts declares no such member
(nor `releaseMultiple`, nor `resetCircuitBreaker`), so the coordinator
exposes no multi-key acquisition at all. -/
theorem coordinator_has_no_tryAcquireMultiple :
    "tryAcquireMultiple" ∈ readmeApiOperations ∧
    "tryAcquireMultiple" ∉ AtomicLock.classMethods ∧
    "releaseMultiple" ∉ AtomicLock.classMethods ∧
    "resetCircuitBreaker" ∉ AtomicLock.classMethods := by
  refine ⟨?_, ?_, ?_, ?_⟩ <;> decide

/-! ## Claim C10 -/

/-- Claim C10: `close()` clears the failure-record map and nothing else — the
driver store is untouched and `lastCleanup` keeps its value; afterwards every
key's circuit breaker reports closed with failure count 0 (and no
lastFailure/nextAttemptAt), a fresh acquisition through the coordinator still
succeeds (the breaker no longer blocks any key), and driver releases behave
exactly as before the close. -/
theorem close_clears_failures_only (cfg : LockConfig) (s : CoordState × MemState)
    (now : Int) (key lockValue : String) :
    (AtomicLockMem.close s).2 = s.2 ∧
    (AtomicLockMem.close s).1.lockFailures = [] ∧
    (AtomicLockMem.close s).1.lastCleanup = s.1.lastCleanup ∧
    getCircuitBreakerStatus cfg now (AtomicLockMem.close s).1 key
      = ⟨false, 0, none, none⟩ ∧
    (AtomicLock.tryAcquire cfg now key lockValue (DriverOutcome.ok true)
      (AtomicLockMem.close s).1).1 = some lockValue ∧
    MemoryLockDriver.release key lockValue (AtomicLockMem.close s).2
      = MemoryLockDriver.release key lockValue s.2 := by
  refine ⟨rfl, rfl, rfl, rfl, ?_, rfl⟩
  simp [AtomicLock.tryAcquire, AtomicLockMem.close, isCircuitOpen, mapLookup]

/-! ## Supporting lemmas about the memory driver's expiry cleanup -/

theorem expireOne_lookup_or (now : Int) (k0 k : String) (l : MemState) :
    mapLookup k (expireOne now k0 l) = mapLookup k l ∨
    mapLookup k (expireOne now k0 l) = none := by
  unfold expireOne
  rcases h : mapLookup k0 l with _ | e
  · exact Or.inl rfl
  · dsimp only
    by_cases hexp : e.expiresAt < now
    · rw [if_pos hexp]
      by_cases hk : k = k0
      · subst hk
        exact Or.inr (mapLookup_mapDelete_self k l)
      · exact Or.inl (mapLookup_mapDelete_ne hk l)
    · rw [if_neg hexp]
      exact Or.inl rfl

theorem expireOne_lookup_live (now : Int) (k0 : String) {b : String} {l : MemState}
    {r : MemLock} (hb : mapLookup b l = some r) (hr : ¬ r.expiresAt < now) :
    mapLookup b (expireOne now k0 l) = some r := by
  unfold expireOne
  rcases h : mapLookup k0 l with _ | e
  · exact hb
  · dsimp only
    by_cases hexp : e.expiresAt < now
    · rw [if_pos hexp]
      by_cases hk : k0 = b
      · subst hk
        rw [hb] at h
        injection h with h'
        subst h'
        exact absurd hexp hr
      · rw [mapLookup_mapDelete_ne (fun hh => hk hh.symm) l]
        exact hb
    · rw [if_neg hexp]
      exact hb

theorem expireKeys_lookup_or (now : Int) (keys : List String) (l : MemState) (k : String) :
    mapLookup k (expireKeys now keys l) = mapLookup k l ∨
    mapLookup k (expireKeys now keys l) = none := by
  induction keys generalizing l with
  | nil => exact Or.inl rfl
  | cons k0 rest ih =>
    show mapLookup k (expireKeys now rest (expireOne now k0 l)) = mapLookup k l ∨
      mapLookup k (expireKeys now rest (expireOne now k0 l)) = none
    rcases ih (expireOne now k0 l) with h | h
    · rcases expireOne_lookup_or now k0 k l with h' | h'
      · exact Or.inl (h.trans h')
      · exact Or.inr (h.trans h')
    · exact Or.inr h

theorem expireKeys_lookup_live (now : Int) (keys : List String) {b : String} {l : MemState}
    {r : MemLock} (hb : mapLookup b l = some r) (hr : ¬ r.expiresAt < now) :
    mapLookup b (expireKeys now keys l) = some r := by
  induction keys generalizing l with
  | nil => exact hb
  | cons k0 rest ih =>
    exact ih (expireOne_lookup_live now k0 hb hr)

/-! ## Claim C4 -/

/-- Claim C4: batch acquisition is all-or-nothing on a conflict, for both the
memory and the file driver.  If some listed key `b` holds a live record
(`now < expiresAt`), then (memory driver) `tryAcquireMultiple` returns
`false` and afterwards every key's entry is either its old record or gone
(the only mutation is the expired-entry cleanup — no entry was created), and
(file driver) `tryAcquireMultiple` returns `false` with the filesystem
entirely untouched. -/
theorem tryAcquireMultiple_all_or_nothing (now : Int) (keys : List String)
    (b lockValue : String) (ttl : Int) (locks : MemState) (r : MemLock)
    (lockDir : String) (fsys : JsMap FileLock) (fr : FileLock)
    (hb : b ∈ keys)
    (hmem : mapLookup b locks = some r) (hlive : now < r.expiresAt)
    (hfile : mapLookup (FileLockDriver.getLockPath lockDir b) fsys = some fr)
    (hflive : now < fr.expiresAt) :
    (MemoryLockDriver.tryAcquireMultiple now keys lockValue ttl locks).1 = false ∧
    (∀ k, mapLookup k (MemoryLockDriver.tryAcquireMultiple now keys lockValue ttl locks).2
        = mapLookup k locks ∨
      mapLookup k (MemoryLockDriver.tryAcquireMultiple now keys lockValue ttl locks).2
        = none) ∧
    FileLockDriver.tryAcquireMultiple lockDir now keys lockValue ttl fsys = (false, fsys) := by
  have hc : mapLookup b (expireKeys now keys locks) = some r :=
    expireKeys_lookup_live now keys hmem (by omega)
  have hany : keys.any (fun k => (mapLookup k (expireKeys now keys locks)).isSome) = true :=
    List.any_eq_true.mpr ⟨b, hb, by rw [hc]; rfl⟩
  have hres : MemoryLockDriver.tryAcquireMultiple now keys lockValue ttl locks
      = (false, expireKeys now keys locks) := by
    unfold MemoryLockDriver.tryAcquireMultiple
    dsimp only
    rw [hany]
    simp
  refine ⟨by rw [hres], ?_, ?_⟩
  · intro k
    rw [hres]
    exact expireKeys_lookup_or now keys locks k
  · have hpath : FileLockDriver.getLockPath lockDir b
        ∈ keys.map (FileLockDriver.getLockPath lockDir) := List.mem_map_of_mem _ hb
    have hany2 : (keys.map (FileLockDriver.getLockPath lockDir)).any (fun p =>
        match mapLookup p fsys with
        | some existing => decide (now ≤ existing.expiresAt)
        | none => false) = true :=
      List.any_eq_true.mpr ⟨FileLockDriver.getLockPath lockDir b, hpath, by
        rw [hfile]
        exact decide_eq_true (le_of_lt hflive)⟩
    unfold FileLockDriver.tryAcquireMultiple
    dsimp only
    rw [hany2]
    simp

/-- Witness for `tryAcquireMultiple_all_or_nothing` on keys `[a, b, c]` with
`b` live in both drivers' stores. -/
theorem tryAcquireMultiple_all_or_nothing_witness :
    (MemoryLockDriver.tryAcquireMultiple 0 ["a", "b", "c"] "v" 10
      [("b", ⟨"x", 10, 0⟩)]).1 = false ∧
    FileLockDriver.tryAcquireMultiple "d" 0 ["a", "b", "c"] "v" 10
      [("d/b.lock", ⟨"x", 10, 0⟩)] = (false, [("d/b.lock", ⟨"x", 10, 0⟩)]) := by
  have h := tryAcquireMultiple_all_or_nothing 0 ["a", "b", "c"] "b" "v" 10
    [("b", ⟨"x", 10, 0⟩)] ⟨"x", 10, 0⟩ "d" [("d/b.lock", ⟨"x", 10, 0⟩)] ⟨"x", 10, 0⟩
    (by decide) (by decide) (by decide) (by decide) (by decide)
  exact ⟨h.1, h.2.2⟩

/-! ## Claim C6 -/

/-- Claim C6, counterexample to the claim as stated: with TTL 0 the acquired
record has `expiresAt = now`, which is not live (`now < expiresAt` fails),
yet at that same timestamp the driver's `exists` still returns `true` and a
second `tryAcquire` by another caller still returns `false` — the code treats
a record as expired only when `expiresAt < now` strictly. -/
theorem mem_zero_ttl_same_instant_blocks :
    (MemoryLockDriver.tryAcquire 0 "k" "t" 0 []).1 = true ∧
    (MemoryLockDriver.existsKey 0 "k" (MemoryLockDriver.tryAcquire 0 "k" "t" 0 []).2).1
      = true ∧
    (MemoryLockDriver.tryAcquire 0 "k" "u" 5 (MemoryLockDriver.tryAcquire 0 "k" "t" 0 []).2).1
      = false := by
  refine ⟨?_, ?_, ?_⟩ <;> decide

/-- Claim C6 (amended): a `tryAcquire` with zero or negative TTL on a free key
succeeds and stores a record with `expiresAt = now + ttl·1000 ≤ now`; at every
strictly later timestamp the record is expired, so `exists` returns `false`
and a `tryAcquire` for the same key by another caller returns `true`.  (At
the exact acquisition timestamp with TTL 0 the record still blocks, as the
counterexample shows.) -/
theorem mem_zero_ttl_expires_for_later_calls (now0 : Int) (key lockValue : String)
    (ttl : Int) (locks : MemState)
    (hfree : mapLookup key locks = none) (httl : ttl ≤ 0) :
    (MemoryLockDriver.tryAcquire now0 key lockValue ttl locks).1 = true ∧
    (∀ now1, now0 < now1 →
      (MemoryLockDriver.existsKey now1 key
        (MemoryLockDriver.tryAcquire now0 key lockValue ttl locks).2).1 = false) ∧
    (∀ (now1 : Int) (v2 : String) (ttl2 : Int), now0 < now1 →
      (MemoryLockDriver.tryAcquire now1 key v2 ttl2
        (MemoryLockDriver.tryAcquire now0 key lockValue ttl locks).2).1 = true) := by
  have hexp : now0 + ttl * 1000 ≤ now0 := by
    have h1000 : ttl * 1000 ≤ 0 := by
      have := mul_le_mul_of_nonneg_right httl (by norm_num : (0 : Int) ≤ 1000)
      simpa using this
    omega
  have hres : MemoryLockDriver.tryAcquire now0 key lockValue ttl locks
      = (true, mapSet key
          { value := lockValue, expiresAt := now0 + ttl * 1000, createdAt := now0 } locks) := by
    unfold MemoryLockDriver.tryAcquire expireOne
    rw [hfree]
    dsimp only
    rw [hfree]
    rfl
  refine ⟨by rw [hres], ?_, ?_⟩
  · intro now1 h1
    rw [hres]
    dsimp only
    unfold MemoryLockDriver.existsKey
    rw [mapLookup_mapSet_self]
    dsimp only
    rw [if_pos (by omega : now0 + ttl * 1000 < now1)]
  · intro now1 v2 ttl2 h1
    rw [hres]
    dsimp only
    unfold MemoryLockDriver.tryAcquire expireOne
    rw [mapLookup_mapSet_self]
    dsimp only
    rw [if_pos (by omega : now0 + ttl * 1000 < now1)]
    rw [mapLookup_mapDelete_self]
    rfl

/-- Witness for `mem_zero_ttl_expires_for_later_calls` acquiring `"k"` with
TTL 0 at time 0 and probing at time 5. -/
theorem mem_zero_ttl_expires_for_later_calls_witness :
    (MemoryLockDriver.tryAcquire 0 "k" "t" 0 []).1 = true ∧
    (MemoryLockDriver.existsKey 5 "k" (MemoryLockDriver.tryAcquire 0 "k" "t" 0 []).2).1
      = false ∧
    (MemoryLockDriver.tryAcquire 5 "k" "u" 10 (MemoryLockDriver.tryAcquire 0 "k" "t" 0 []).2).1
      = true := by
  have h := mem_zero_ttl_expires_for_later_calls 0 "k" "t" 0 [] rfl (le_refl 0)
  exact ⟨h.1, h.2.1 5 (by decide), h.2.2 5 "u" 10 (by decide)⟩

/-! ## Claim C7 -/

/-- One `recordLockFailure` call of a call sequence, as folded state
transition. -/
def recordStep (cfg : LockConfig) (s : CoordState) (op : Int × String) : CoordState :=
  recordLockFailure cfg op.1 op.2 s

/-- Claim C7: with a positive configured maximum, (i) along any sequence of
`recordLockFailure` calls the failure map never exceeds `maxFailureEntries`
entries once within the bound, and (ii) whenever the map is at or above the
maximum when a failure is recorded (and the time-based sweep does not fire),
the oldest-inserted up-to-100 entries — the first 100 of the
insertion-ordered map — are evicted: any of those keys other than the one
being recorded is absent afterwards. -/
theorem failure_map_bounded (cfg : LockConfig) (h1 : 1 ≤ cfg.maxFailureEntries) :
    (∀ (ops : List (Int × String)) (s0 : CoordState),
      s0.lockFailures.length ≤ cfg.maxFailureEntries →
      (ops.foldl (recordStep cfg) s0).lockFailures.length ≤ cfg.maxFailureEntries) ∧
    (∀ (now : Int) (key : String) (s : CoordState),
      ¬ 60000 < now - s.lastCleanup →
      cfg.maxFailureEntries ≤ s.lockFailures.length →
      (s.lockFailures.map Prod.fst).Nodup →
      ∀ k, k ∈ (s.lockFailures.take 100).map Prod.fst → k ≠ key →
        mapLookup k (recordLockFailure cfg now key s).lockFailures = none) := by
  constructor
  · intro ops
    induction ops with
    | nil => intro s0 h2; exact h2
    | cons op rest ih =>
      intro s0 h2
      exact ih (recordStep cfg s0 op) (recordLockFailure_length_le cfg h1 op.1 op.2 s0 h2)
  · intro now key s hsw hsz hnd k hk hkey
    have hsweep : failureSweep cfg now s = s := by
      unfold failureSweep
      rw [if_neg hsw]
    unfold recordLockFailure
    rw [hsweep]
    unfold recordFailureEvict
    rw [if_pos hsz]
    dsimp only
    rw [upsertFailure_lookup_ne cfg now hkey]
    apply mapLookup_eq_none_of_not_mem_keys
    have hnd' := hnd
    rw [← List.take_append_drop 100 s.lockFailures, List.map_append] at hnd'
    have hdisj := (List.nodup_append.mp hnd').2.2
    exact fun hmem => hdisj hk hmem

/-- Witness for `failure_map_bounded`: a three-call sequence stays within a
cap of 2, and with cap 1 a full map evicts its oldest entry when a new key's
failure is recorded. -/
theorem failure_map_bounded_witness :
    (([((0 : Int), "a"), (0, "b"), (0, "c")].foldl
        (recordStep ⟨5, 30000, 2⟩) ⟨[], 0⟩).lockFailures.length ≤ 2) ∧
    mapLookup "a" (recordLockFailure ⟨5, 30000, 1⟩ 0 "b"
      ⟨[("a", ⟨3, 0⟩)], 0⟩).lockFailures = none := by
  constructor
  · exact (failure_map_bounded ⟨5, 30000, 2⟩ (by decide)).1
      [(0, "a"), (0, "b"), (0, "c")] ⟨[], 0⟩ (by decide)
  · exact (failure_map_bounded ⟨5, 30000, 1⟩ (by decide)).2 0 "b"
      ⟨[("a", ⟨3, 0⟩)], 0⟩ (by decide) (by decide) (by decide) "a" (by decide) (by decide)
